import Mathlib

/-!
Verification of the frs shell-context composition engine.

Strings of the Rust source are modelled as `List Char`.  Each Rust function
of `src/frs/src/lib.rs` and `src/frs/src/main.rs` that the claims touch is
embedded as an executable Lean definition; Rust panics (`unwrap` on `None`)
are modelled by `Option`, filesystem records by explicit `Option Context`
arguments, and ANSI colouring (declared cosmetic and out of scope by the
spec) is dropped, keeping only the rendered text.
-/

namespace Frs

/-- Strings are modelled as lists of characters. -/
abbrev Str := List Char

/-- The constant `TEMPLATE_PLACEHOLDER` of lib.rs. -/
def TEMPLATE_PLACEHOLDER : Str := "(((( echo 'frs placeholder' ))))".data

/-- One entry of the provenance trail (`MetadataStepLog` of lib.rs). -/
structure MetadataStepLog where
  description : Str
  prompt : Option Str
deriving DecidableEq

/-- The metadata of a context (`Metadata` of lib.rs).  The Rust field
`namespace` is a Lean keyword and is called `nspace` here. -/
structure Metadata where
  nspace : Str
  name : Str
  is_dirty : Bool
  step_log : List MetadataStepLog
deriving DecidableEq

/-- The composable state (`Context` of lib.rs).  The Rust `env` field is a
`HashMap<String, String>`; it is modelled as an association list, which is
adequate here because no operation under verification reads or writes it
after construction. -/
structure Context where
  meta : Metadata
  env : List (Str × Str)
  template : Str
deriving DecidableEq

/-- Scanner of Rust `str::replace`: at each position, if the (nonempty)
pattern matches, emit the replacement and skip the matched characters,
otherwise copy one character; matches are found left to right and do not
overlap.  The first `Nat` argument counts characters still to skip after a
match.  (For an empty pattern Rust additionally inserts the replacement at
the very end; the only pattern used in this development is the 32-character
`TEMPLATE_PLACEHOLDER`, so that case is irrelevant.) -/
def rgo (pat rep : Str) : Nat → Str → Str
  | _, [] => []
  | Nat.succ skip, _ :: rest => rgo pat rep skip rest
  | 0, c :: rest =>
    if pat.isPrefixOf (c :: rest) then
      rep ++ rgo pat rep (pat.length - 1) rest
    else
      c :: rgo pat rep 0 rest

/-- Rust `t.replace(pat, rep)`. -/
def replaceL (pat rep t : Str) : Str := rgo pat rep 0 t

/-- Escaping of one character under Rust `Debug` formatting of strings
(`{:?}`): backslash, double quote and the common control characters get a
backslash escape, any other character is copied.  (Rust also
unicode-escapes other non-printable characters; none of the characters
relevant to the claims are of that kind.) -/
def escape_debug_char (c : Char) : Str :=
  if c = '"' then ['\\', '"']
  else if c = '\\' then ['\\', '\\']
  else if c = '\n' then ['\\', 'n']
  else if c = '\t' then ['\\', 't']
  else if c = '\r' then ['\\', 'r']
  else [c]

/-- Rust `format!("{:?}", s)` for a string `s`: the escaped text between
double quotes. -/
def rust_debug_str (s : Str) : Str :=
  '"' :: (s.map escape_debug_char).flatten ++ ['"']

/-- Chunks of a path between `/` separators (helper for the `std::path`
model). -/
def splitSlash : Str → List Str
  | [] => [[]]
  | c :: r =>
    if c = '/' then [] :: splitSlash r
    else
      match splitSlash r with
      | [] => [[c]]
      | h :: t => (c :: h) :: t

/-- Path components as `std::path` exposes them to `file_name`/`parent` on
Unix: the chunks between slashes with empty and `.` chunks dropped (a `.`
component can survive only as the entire path, where `file_name` is `none`
anyway); `..` chunks are kept. -/
def pathComponents (p : Str) : List Str :=
  (splitSlash p).filter (fun s => !(s.isEmpty || s = ".".data))

/-- Rust `Path::file_name`: the last component when it is a normal one;
`none` for an empty path, a root path, or a path terminating in `..`. -/
def file_name (p : Str) : Option Str :=
  match (pathComponents p).getLast? with
  | some s => if s = "..".data then none else some s
  | none => none

/-- The helper `path_last` of lib.rs:
`path.file_name().unwrap().to_str().unwrap()`.  `to_str` cannot fail on
data that came from a Rust `String`, so the sole panic source is
`file_name` returning `None`, modelled as `none` here. -/
def path_last (p : Str) : Option Str := file_name p

/-- Rust `Path::parent`, observed through `path_last` only: the path made
of all components but the last, `none` when there is no component at all
(empty or root-only path).  The returned string carries no leading root;
this is invisible to `path_last`, the only consumer in the source. -/
def parent (p : Str) : Option Str :=
  match pathComponents p with
  | [] => none
  | cs => some (List.intercalate "/".data cs.dropLast)

/-- First token of Rust `cmd.split_whitespace().next().unwrap_or("")`. -/
def split_whitespace_first (s : Str) : Str :=
  (s.dropWhile Char.isWhitespace).takeWhile (fun c => !c.isWhitespace)

/-- The helper `sanitize_string` of lib.rs: keep a character when it is not
whitespace or is the ordinary space. -/
def sanitize_string (s : Str) : Str :=
  s.filter (fun c => !c.isWhitespace || c = ' ')

/-- Text produced by `sanitize_and_painted` of lib.rs (colouring dropped):
sanitize exactly when some whitespace other than a space occurs. -/
def sanitize_and_painted_text (s : Str) : Str :=
  if s.any (fun c => c.isWhitespace && !(c = ' ')) then sanitize_string s else s

/-- The operation `builtin::with_workdir` of lib.rs.  `none` models the
panic of `path_last` on a workdir without a final normal component. -/
def with_workdir (c : Context) (workdir : Str) : Option Context :=
  (path_last workdir).map fun last =>
    { c with
      meta := { c.meta with
        is_dirty := true,
        step_log := c.meta.step_log ++
          [⟨"core::with_workdir ".data ++ rust_debug_str workdir,
            some ("wd(..".data ++ last ++ ")".data)⟩] },
      template := replaceL TEMPLATE_PLACEHOLDER
        ("(cd ".data ++ workdir ++ ";\n ".data ++ TEMPLATE_PLACEHOLDER ++ ")".data)
        c.template }

/-- The operation `builtin::with_path` of lib.rs.  `none` models the two
panic points: `path_last` on the path itself, and `path_last` on its parent
in the `bin` branch. -/
def with_path (c : Context) (path : Str) : Option Context := do
  let fileName ← path_last path
  let promptStr ←
    if fileName = "bin".data then
      match parent path with
      | some par => (path_last par).map (fun s => "toolchain(".data ++ s ++ ")".data)
      | none => some ("toolchain(bin)".data)
    else
      some ("path(".data ++ fileName ++ ")".data)
  some { c with
    meta := { c.meta with
      is_dirty := true,
      step_log := c.meta.step_log ++
        [⟨"core::with_path ".data ++ rust_debug_str path, some promptStr⟩] },
    template := replaceL TEMPLATE_PLACEHOLDER
      ("(export PATH=${PATH}:".data ++ path ++ ";\n ".data ++
        TEMPLATE_PLACEHOLDER ++ ")".data)
      c.template }

/-- The operation `builtin::with_env` of lib.rs (total). -/
def with_env (c : Context) (key value : Str) : Context :=
  { c with
    meta := { c.meta with
      is_dirty := true,
      step_log := c.meta.step_log ++
        [⟨"core::with_env ".data ++ rust_debug_str key ++ "=".data ++
            rust_debug_str value,
          some ("env(".data ++ key ++ ")".data)⟩] },
    template := replaceL TEMPLATE_PLACEHOLDER
      ("(export ".data ++ key ++ "=".data ++ value ++ ";\n ".data ++
        TEMPLATE_PLACEHOLDER ++ ")".data)
      c.template }

/-- The operation `builtin::with_command` of lib.rs (total). -/
def with_command (c : Context) (cmd : Str) : Context :=
  { c with
    meta := { c.meta with
      is_dirty := true,
      step_log := c.meta.step_log ++
        [⟨"core::with_command ".data ++ rust_debug_str cmd,
          some ("exec(".data ++ split_whitespace_first cmd ++ ")".data)⟩] },
    template := replaceL TEMPLATE_PLACEHOLDER
      ("(".data ++ cmd ++ ";\n ".data ++ TEMPLATE_PLACEHOLDER ++ ")".data)
      c.template }

/-- The operation `builtin::with_docker` of lib.rs (total).  Note that the
prompt is built with `format!("ctr({:?})", container)`, hence the `Debug`
quoting around the container name. -/
def with_docker (c : Context) (container : Str) : Context :=
  { c with
    meta := { c.meta with
      is_dirty := true,
      step_log := c.meta.step_log ++
        [⟨"core::with_docker ".data ++ rust_debug_str container,
          some ("ctr(".data ++ rust_debug_str container ++ ")".data)⟩] },
    template := replaceL TEMPLATE_PLACEHOLDER
      ("(docker run ".data ++ container ++ " ".data ++
        TEMPLATE_PLACEHOLDER ++ ")".data)
      c.template }

/-- One wrap-style operation together with its string arguments. -/
inductive Op
  | workdir (w : Str)
  | path (p : Str)
  | env (k v : Str)
  | command (s : Str)
  | docker (d : Str)
deriving DecidableEq

/-- Application of one wrap operation; `none` models a panic. -/
def applyOp : Op → Context → Option Context
  | .workdir w, c => with_workdir c w
  | .path p, c => with_path c p
  | .env k v, c => some (with_env c k v)
  | .command s, c => some (with_command c s)
  | .docker d, c => some (with_docker c d)

/-- Application of a sequence of wrap operations, first operation first. -/
def applyOps : List Op → Context → Option Context
  | [], c => some c
  | op :: rest, c => (applyOp op c).bind (applyOps rest)

/-- The replacement text an operation substitutes for the placeholder
(the second argument of `template.replace` in each operation). -/
def wrapText : Op → Str
  | .workdir w => "(cd ".data ++ w ++ ";\n ".data ++ TEMPLATE_PLACEHOLDER ++ ")".data
  | .path p => "(export PATH=${PATH}:".data ++ p ++ ";\n ".data ++
      TEMPLATE_PLACEHOLDER ++ ")".data
  | .env k v => "(export ".data ++ k ++ "=".data ++ v ++ ";\n ".data ++
      TEMPLATE_PLACEHOLDER ++ ")".data
  | .command s => "(".data ++ s ++ ";\n ".data ++ TEMPLATE_PLACEHOLDER ++ ")".data
  | .docker d => "(docker run ".data ++ d ++ " ".data ++ TEMPLATE_PLACEHOLDER ++ ")".data

/-- The part of `wrapText` preceding the placeholder. -/
def wrapA : Op → Str
  | .workdir w => "(cd ".data ++ w ++ ";\n ".data
  | .path p => "(export PATH=${PATH}:".data ++ p ++ ";\n ".data
  | .env k v => "(export ".data ++ k ++ "=".data ++ v ++ ";\n ".data
  | .command s => "(".data ++ s ++ ";\n ".data
  | .docker d => "(docker run ".data ++ d ++ " ".data

/-- The step-log entry an operation appends, determined by the operation
alone; `none` models the panic cases of `with_workdir`/`with_path`. -/
def opEntry : Op → Option MetadataStepLog
  | .workdir w => (path_last w).map fun last =>
      ⟨"core::with_workdir ".data ++ rust_debug_str w,
        some ("wd(..".data ++ last ++ ")".data)⟩
  | .path p => do
      let fileName ← path_last p
      let promptStr ←
        if fileName = "bin".data then
          match parent p with
          | some par => (path_last par).map (fun s => "toolchain(".data ++ s ++ ")".data)
          | none => some ("toolchain(bin)".data)
        else
          some ("path(".data ++ fileName ++ ")".data)
      some ⟨"core::with_path ".data ++ rust_debug_str p, some promptStr⟩
  | .env k v => some
      ⟨"core::with_env ".data ++ rust_debug_str k ++ "=".data ++ rust_debug_str v,
        some ("env(".data ++ k ++ ")".data)⟩
  | .command s => some
      ⟨"core::with_command ".data ++ rust_debug_str s,
        some ("exec(".data ++ split_whitespace_first s ++ ")".data)⟩
  | .docker d => some
      ⟨"core::with_docker ".data ++ rust_debug_str d,
        some ("ctr(".data ++ rust_debug_str d ++ ")".data)⟩

/-- The entries a sequence of operations appends, in call order. -/
def opEntries : List Op → Option (List MetadataStepLog)
  | [] => some []
  | op :: rest => do
      let e ← opEntry op
      let es ← opEntries rest
      some (e :: es)

/-- Modelled from the spec: the crate version string read from build
metadata (`env!("CARGO_PKG_VERSION")`; the Cargo manifest is not part of
the sources under verification).  Its exact value is irrelevant to every
claim. -/
def build_info_VERSION : Str := "0.1.0".data

/-- The function `get_base_context` of main.rs: the fresh anonymous base
context. -/
def get_base_context : Context :=
  { meta := { nspace := "default".data, name := "default".data,
              is_dirty := false, step_log := [] },
    env := [("FRS_VERSION".data, build_info_VERSION)],
    template := TEMPLATE_PLACEHOLDER }

/-- The function `get_current_shell_context` of main.rs, with the ephemeral
session record abstracted to an `Option Context` (the serialization
collaborator is lossless per the spec): an absent record yields the fresh
base context. -/
def get_current_shell_context (stored : Option Context) : Context :=
  match stored with
  | some c => c
  | none => get_base_context

/-- The function `load_context` of lib.rs over an abstract named record: an
absent record is fatal (`std::process::exit(1)`), modelled as `none`; a
present record decodes to the stored context. -/
def load_context (stored : Option Context) : Option Context := stored

/-- The `save` subcommand of main.rs (`save_context`): it stamps the target
namespace and name, clears the dirty flag, and the resulting context is
what gets written to both the named and the session record. -/
def save_context (c : Context) (nspace name : Str) : Context :=
  { c with meta := { c.meta with
      nspace := nspace, name := name, is_dirty := false } }

/-- The template substitution of the `run` subcommand of main.rs:
`context.template.replace(TEMPLATE_PLACEHOLDER, &command_str)` where
`command_str` is the space-joined user command. -/
def run_context (c : Context) (command_str : Str) : Str :=
  replaceL TEMPLATE_PLACEHOLDER command_str c.template

/-- Substitution of path separators in one component of
`get_saved_context_path`: Rust `s.replace(['/', '\\'], "·")`. -/
def sanitize_component (s : Str) : Str :=
  s.map (fun c => if c = '/' || c = '\\' then '·' else c)

/-- The function `get_saved_context_path` of lib.rs, with the home
directory (read from the `HOME`/`USERPROFILE` environment variable) passed
explicitly:
`format!("{}/.config/frs/context/{}/{}.json", home, ns', name')`. -/
def get_saved_context_path (home nspace name : Str) : Str :=
  home ++ "/.config/frs/context/".data ++ sanitize_component nspace ++
    "/".data ++ sanitize_component name ++ ".json".data

/-- The name tag of the prompt rendering: `<name>` under the `default`
namespace, `<namespace>::<name>` otherwise. -/
def prompt_name_tag (c : Context) : Str :=
  if c.meta.nspace = "default".data then c.meta.name
  else c.meta.nspace ++ "::".data ++ c.meta.name

/-- Space-prefixed sanitized fragments, one per step-log entry carrying a
prompt. -/
def prompt_fragments (log : List MetadataStepLog) : Str :=
  (log.map fun e =>
    match e.prompt with
    | some p => ' ' :: sanitize_and_painted_text p
    | none => []).flatten

/-- Text of the `PrettyPrompt` rendering of lib.rs (ANSI colouring
dropped, per the spec colouring is cosmetic and out of scope): the
parenthesised name tag, then, only when the context is dirty, the
sanitized prompt fragments. -/
def pretty_prompt (c : Context) : Str :=
  "(".data ++ prompt_name_tag c ++ ")".data ++
    (if c.meta.is_dirty then prompt_fragments c.meta.step_log else [])

/-- Proposition: the placeholder occurs in `t` at position `i`. -/
def occursAt (t : Str) (i : Nat) : Prop := TEMPLATE_PLACEHOLDER <+: t.drop i

/-- Number of positions of `t` at which the placeholder occurs. -/
def occCount (t : Str) : Nat :=
  ((List.range t.length).filter
    (fun i => TEMPLATE_PLACEHOLDER.isPrefixOf (t.drop i))).length

/-- Resolution of a component list against an absolute root: a `..`
component removes the previously accumulated component (at the root it is a
no-op, as for an absolute OS path); used to state what path a crafted
namespace or name actually reaches. -/
def resolvePath (cs : List Str) : List Str :=
  cs.foldl (fun acc c => if c = "..".data then acc.dropLast else acc ++ [c]) []


/-! ### Helper lemmas about the placeholder and occurrences -/

lemma PL_length : TEMPLATE_PLACEHOLDER.length = 32 := by decide

lemma PL_head : TEMPLATE_PLACEHOLDER[0]? = some '(' := by decide

lemma PL_space_next : ∀ k, k < 31 → TEMPLATE_PLACEHOLDER[k]? = some ' ' →
    ¬ TEMPLATE_PLACEHOLDER[k + 1]? = some '(' := by decide

lemma PL_rparen_pos : ∀ k, k < 32 → TEMPLATE_PLACEHOLDER[k]? = some ')' → 28 ≤ k := by
  decide

lemma PL_no_shift : ∀ s, s < 5 → 2 ≤ s →
    ¬ (∀ k, k < 32 - s → TEMPLATE_PLACEHOLDER[k]? = TEMPLATE_PLACEHOLDER[s + k]?) := by
  decide

lemma isPrefixOf_eq_true_iff {l₁ l₂ : Str} : l₁.isPrefixOf l₂ = true ↔ l₁ <+: l₂ := by
  simp

lemma occ_len {t : Str} {i : Nat} (h : occursAt t i) : i + 32 ≤ t.length := by
  have h1 := h.length_le
  rw [List.length_drop, PL_length] at h1
  omega

lemma occ_char {t : Str} {i : Nat} (h : occursAt t i) {k : Nat} (hk : k < 32) :
    t[i + k]? = TEMPLATE_PLACEHOLDER[k]? := by
  obtain ⟨r, hr⟩ := h
  have h2 : t[i + k]? = (t.drop i)[k]? := (List.getElem?_drop t i k).symm
  rw [h2, ← hr, List.getElem?_append_left (by rw [PL_length]; exact hk)]

lemma occ_append_add {x y : Str} {j : Nat} :
    occursAt (x ++ y) (x.length + j) ↔ occursAt y j := by
  unfold occursAt
  rw [List.drop_append]

lemma pfx_of_append {p a b : Str} (h : p <+: a ++ b) (hl : p.length ≤ a.length) :
    p <+: a := by
  obtain ⟨r, hr⟩ := h
  have h1 : p = (a ++ b).take p.length := by
    rw [← hr, List.take_left' rfl]
  have h2 : (a ++ b).take p.length = a.take p.length := by
    rw [List.take_append_eq_append_take, Nat.sub_eq_zero_of_le hl]
    simp
  rw [h1, h2]
  exact List.take_prefix _ _

lemma occ_extract {x y : Str} {i : Nat} (hlen : i + 32 ≤ x.length)
    (h : occursAt (x ++ y) i) : occursAt x i := by
  unfold occursAt at h ⊢
  rw [List.drop_append_eq_append_drop] at h
  exact pfx_of_append h (by rw [PL_length, List.length_drop]; omega)

lemma occ_extend {x : Str} (y : Str) {i : Nat} (h : occursAt x i) :
    occursAt (x ++ y) i := by
  unfold occursAt at h ⊢
  rw [List.drop_append_eq_append_drop]
  exact h.trans (List.prefix_append _ _)

lemma filter_length_one {p : Nat → Bool} (l : List Nat) (hnd : l.Nodup) (i : Nat)
    (hi : i ∈ l) (hpi : p i = true) (hu : ∀ j ∈ l, p j = true → j = i) :
    (l.filter p).length = 1 := by
  induction l with
  | nil => exact absurd hi (List.not_mem_nil i)
  | cons x xs ih =>
    rw [List.nodup_cons] at hnd
    by_cases hx : x = i
    · subst hx
      rw [List.filter_cons_of_pos hpi]
      have hfe : xs.filter p = [] := by
        rw [List.filter_eq_nil_iff]
        intro j hj hpj
        have hji := hu j (List.mem_cons_of_mem _ hj) hpj
        subst hji
        exact hnd.1 hj
      rw [hfe]
      rfl
    · have hpx : ¬ p x = true := fun hpx => hx (hu x (List.mem_cons_self _ _) hpx)
      rw [List.filter_cons_of_neg (by simpa using hpx)]
      exact ih hnd.2 ((List.mem_cons.mp hi).resolve_left (fun h => hx h.symm))
        (fun j hj hpj => hu j (List.mem_cons_of_mem _ hj) hpj)

lemma occCount_one_of_unique {t : Str} {i : Nat} (hi : occursAt t i)
    (hu : ∀ j, occursAt t j → j = i) : occCount t = 1 := by
  unfold occCount
  refine filter_length_one _ (List.nodup_range _) i
    (List.mem_range.mpr (by have := occ_len hi; omega))
    (isPrefixOf_eq_true_iff.mpr hi)
    (fun j _ hpj => hu j (isPrefixOf_eq_true_iff.mp hpj))

lemma unique_of_occCount_one {t : Str} (h : occCount t = 1) :
    ∃ i, occursAt t i ∧ ∀ j, occursAt t j → j = i := by
  unfold occCount at h
  obtain ⟨a, ha⟩ := List.length_eq_one.mp h
  have hmem : a ∈ (List.range t.length).filter
      (fun i => TEMPLATE_PLACEHOLDER.isPrefixOf (t.drop i)) := by
    rw [ha]
    exact List.mem_singleton_self a
  obtain ⟨har, hpa⟩ := List.mem_filter.mp hmem
  refine ⟨a, isPrefixOf_eq_true_iff.mp hpa, ?_⟩
  intro j hj
  have hjlen : j < t.length := by have := occ_len hj; omega
  have hjm : j ∈ (List.range t.length).filter
      (fun i => TEMPLATE_PLACEHOLDER.isPrefixOf (t.drop i)) :=
    List.mem_filter.mpr ⟨List.mem_range.mpr hjlen, isPrefixOf_eq_true_iff.mpr hj⟩
  rw [ha] at hjm
  simpa using hjm

/-! ### Lemmas about the replace scanner -/

lemma rgo_succ (pat rep : Str) (skip : Nat) (c : Char) (rest : Str) :
    rgo pat rep (skip + 1) (c :: rest) = rgo pat rep skip rest := rfl

lemma rgo_cons (pat rep : Str) (c : Char) (rest : Str) :
    rgo pat rep 0 (c :: rest) =
      if pat.isPrefixOf (c :: rest) then rep ++ rgo pat rep (pat.length - 1) rest
      else c :: rgo pat rep 0 rest := rfl

lemma rgo_skip (pat rep : Str) (xs : Str) (v : Str) :
    rgo pat rep xs.length (xs ++ v) = rgo pat rep 0 v := by
  induction xs with
  | nil => rfl
  | cons x xs ih =>
    show rgo pat rep (xs.length + 1) (x :: (xs ++ v)) = rgo pat rep 0 v
    rw [rgo_succ]
    exact ih

lemma rgo_no_match (pat rep : Str) (u w : Str)
    (h : ∀ i, i < u.length → ¬ pat <+: (u ++ w).drop i) :
    rgo pat rep 0 (u ++ w) = u ++ rgo pat rep 0 w := by
  induction u with
  | nil => rfl
  | cons c u ih =>
    have h0 : ¬ pat.isPrefixOf (c :: (u ++ w)) = true := by
      rw [isPrefixOf_eq_true_iff]
      simpa using h 0 (by simp)
    show rgo pat rep 0 (c :: (u ++ w)) = (c :: u) ++ rgo pat rep 0 w
    rw [rgo_cons, if_neg h0, List.cons_append]
    congr 1
    refine ih (fun i hi hocc => h (i + 1) (by simp; omega) ?_)
    rw [show ((c :: u) ++ w).drop (i + 1) = (u ++ w).drop i from rfl]
    exact hocc

lemma rgo_at_match (rep v : Str) :
    rgo TEMPLATE_PLACEHOLDER rep 0 (TEMPLATE_PLACEHOLDER ++ v) =
      rep ++ rgo TEMPLATE_PLACEHOLDER rep 0 v := by
  show rgo TEMPLATE_PLACEHOLDER rep 0
      ('(' :: ("((( echo 'frs placeholder' ))))".data ++ v)) = _
  rw [rgo_cons]
  have hpre : TEMPLATE_PLACEHOLDER <+: '(' :: ("((( echo 'frs placeholder' ))))".data ++ v) :=
    List.prefix_append TEMPLATE_PLACEHOLDER v
  rw [if_pos (isPrefixOf_eq_true_iff.mpr hpre)]
  congr 1

lemma rgo_rparen (rep : Str) (n : Nat) :
    rgo TEMPLATE_PLACEHOLDER rep 0 (List.replicate n ')') = List.replicate n ')' := by
  induction n with
  | zero => rfl
  | succ n ih =>
    rw [List.replicate_succ, rgo_cons, if_neg, ih]
    rw [isPrefixOf_eq_true_iff]
    intro hpre
    obtain ⟨r, hr⟩ := hpre
    have hh := congrArg List.head? hr
    rw [show TEMPLATE_PLACEHOLDER =
        '(' :: "((( echo 'frs placeholder' ))))".data from rfl] at hh
    simp at hh

lemma replace_decomp (rep u : Str) (n : Nat)
    (hq : ∀ i, occursAt (u ++ (TEMPLATE_PLACEHOLDER ++ List.replicate n ')')) i →
      i = u.length) :
    replaceL TEMPLATE_PLACEHOLDER rep
        (u ++ (TEMPLATE_PLACEHOLDER ++ List.replicate n ')')) =
      u ++ (rep ++ List.replicate n ')') := by
  unfold replaceL
  rw [rgo_no_match _ rep u _ (fun i hi hocc => by have := hq i hocc; omega)]
  rw [rgo_at_match, rgo_rparen]


/-! ### The template invariant maintained by the wrap operations -/

/-- Invariant on templates: a head block that is empty or ends in a space,
then the placeholder, then closing parentheses, and the placeholder occurs
at no other position. -/
def InvTemplate (t : Str) : Prop :=
  ∃ u n, t = u ++ (TEMPLATE_PLACEHOLDER ++ List.replicate n ')') ∧
    (u = [] ∨ u.getLast? = some ' ') ∧
    ∀ i, occursAt t i → i = u.length

lemma inv_base : InvTemplate TEMPLATE_PLACEHOLDER := by
  refine ⟨[], 0, by simp, Or.inl rfl, ?_⟩
  intro i hocc
  have h1 := occ_len hocc
  rw [PL_length] at h1
  simpa using Nat.le_zero.mp (by omega)

lemma wrap_tail_rparen (A : Str) (n : Nat) (m : Nat)
    (h1 : A.length + 32 ≤ m) (h2 : m < A.length + 33 + n) :
    ((A ++ (TEMPLATE_PLACEHOLDER ++ [')'])) ++ List.replicate n ')')[m]? = some ')' := by
  have hWlen : (A ++ (TEMPLATE_PLACEHOLDER ++ [')'])).length = A.length + 33 := by
    simp [PL_length]
  by_cases hm : m < A.length + 33
  · have hmm : m = A.length + 32 := by omega
    subst hmm
    rw [List.getElem?_append_left (by omega)]
    rw [List.getElem?_append_right (by omega)]
    rw [show A.length + 32 - A.length = 32 from by omega]
    rw [List.getElem?_append_right (by rw [PL_length])]
    rw [PL_length]
    rfl
  · rw [List.getElem?_append_right (by omega)]
    rw [hWlen]
    exact List.getElem?_replicate_of_lt (by omega)

lemma wrap_pl_char (A : Str) (n m : Nat) (hm : m < 32) :
    ((A ++ (TEMPLATE_PLACEHOLDER ++ [')'])) ++ List.replicate n ')')[A.length + m]? =
      TEMPLATE_PLACEHOLDER[m]? := by
  have hWlen : (A ++ (TEMPLATE_PLACEHOLDER ++ [')'])).length = A.length + 33 := by
    simp [PL_length]
  rw [List.getElem?_append_left (by omega)]
  rw [List.getElem?_append_right (by omega)]
  rw [show A.length + m - A.length = m from by omega]
  rw [List.getElem?_append_left (by rw [PL_length]; exact hm)]

lemma inv_step (A u : Str) (n : Nat)
    (hA1 : ∃ r, A = '(' :: r)
    (hw : ∀ i, occursAt (A ++ (TEMPLATE_PLACEHOLDER ++ [')'])) i → i = A.length)
    (hu : u = [] ∨ u.getLast? = some ' ')
    (hq : ∀ i, occursAt (u ++ (TEMPLATE_PLACEHOLDER ++ List.replicate n ')')) i →
      i = u.length) :
    ∀ i, occursAt (u ++ ((A ++ (TEMPLATE_PLACEHOLDER ++ [')'])) ++ List.replicate n ')')) i →
      i = u.length + A.length := by
  intro i hocc
  have hlen := occ_len hocc
  have htot : (u ++ ((A ++ (TEMPLATE_PLACEHOLDER ++ [')'])) ++ List.replicate n ')')).length
      = u.length + (A.length + 33 + n) := by
    simp [PL_length]
    omega
  rw [htot] at hlen
  rcases Nat.lt_or_ge i u.length with hiu | hiu
  · rcases Nat.lt_or_ge (i + 32) (u.length + 1) with hfit | hcross
    · -- the occurrence would sit inside u, hence inside the old template
      have hocc_u : occursAt u i := occ_extract (by omega) hocc
      have hocc_old : occursAt (u ++ (TEMPLATE_PLACEHOLDER ++ List.replicate n ')')) i :=
        occ_extend _ hocc_u
      have := hq i hocc_old
      omega
    · -- the occurrence would cross the boundary after the space ending u
      have hune : u ≠ [] := by
        intro h
        subst h
        simp at hiu
      have hulast : u.getLast? = some ' ' := hu.resolve_left hune
      have hc1 : (u ++ ((A ++ (TEMPLATE_PLACEHOLDER ++ [')'])) ++
          List.replicate n ')'))[u.length - 1]? = some ' ' := by
        rw [List.getElem?_append_left (by omega), ← List.getLast?_eq_getElem?]
        exact hulast
      have hp1 : TEMPLATE_PLACEHOLDER[u.length - 1 - i]? = some ' ' := by
        have hch := occ_char hocc (k := u.length - 1 - i) (by omega)
        rw [show i + (u.length - 1 - i) = u.length - 1 from by omega] at hch
        rw [← hch]
        exact hc1
      have hc2 : (u ++ ((A ++ (TEMPLATE_PLACEHOLDER ++ [')'])) ++
          List.replicate n ')'))[u.length]? = some '(' := by
        obtain ⟨r, hr⟩ := hA1
        rw [List.getElem?_append_right (Nat.le_refl _), Nat.sub_self, hr]
        simp
      have hp2 : TEMPLATE_PLACEHOLDER[(u.length - 1 - i) + 1]? = some '(' := by
        have hch := occ_char hocc (k := u.length - i) (by omega)
        rw [show i + (u.length - i) = u.length from by omega] at hch
        rw [show u.length - 1 - i + 1 = u.length - i from by omega, ← hch]
        exact hc2
      exact absurd hp2 (PL_space_next _ (by omega) hp1)
  · -- the occurrence lies in the appended block
    have hocc_Y : occursAt ((A ++ (TEMPLATE_PLACEHOLDER ++ [')'])) ++
        List.replicate n ')') (i - u.length) := by
      have hi' : i = u.length + (i - u.length) := by omega
      rw [hi'] at hocc
      exact occ_append_add.mp hocc
    have hWlen : (A ++ (TEMPLATE_PLACEHOLDER ++ [')'])).length = A.length + 33 := by
      simp [PL_length]
    rcases Nat.lt_or_ge ((i - u.length) + 32) (A.length + 34) with hfit | hdeep
    · -- the occurrence fits inside the wrap text: it is the designated one
      have hocc_w : occursAt (A ++ (TEMPLATE_PLACEHOLDER ++ [')'])) (i - u.length) :=
        occ_extract (by omega) hocc_Y
      have := hw _ hocc_w
      omega
    · rcases Nat.lt_or_ge (i - u.length) (A.length + 32) with hnear | hfar
      · -- the occurrence overlaps the closing parentheses: shifted self-match
        have hs2 : A.length + 2 ≤ i - u.length := by omega
        have hk0 := occ_char hocc_Y (k := (A.length + 32) - (i - u.length)) (by omega)
        rw [show (i - u.length) + ((A.length + 32) - (i - u.length)) = A.length + 32
          from by omega] at hk0
        have hrp := wrap_tail_rparen A n (A.length + 32) (by omega) (by omega)
        have hA32 : TEMPLATE_PLACEHOLDER[(A.length + 32) - (i - u.length)]? = some ')' :=
          hk0.symm.trans hrp
        have h28 := PL_rparen_pos _ (by omega) hA32
        have hshift : ∀ k, k < 32 - ((i - u.length) - A.length) →
            TEMPLATE_PLACEHOLDER[k]? =
              TEMPLATE_PLACEHOLDER[((i - u.length) - A.length) + k]? := by
          intro k hk
          have hch := occ_char hocc_Y (k := k) (by omega)
          rw [show (i - u.length) + k = A.length + (((i - u.length) - A.length) + k)
            from by omega] at hch
          rw [wrap_pl_char A n _ (by omega)] at hch
          exact hch.symm
        exact absurd hshift (PL_no_shift _ (by omega) (by omega))
      · -- the occurrence would start among the closing parentheses
        have hjlen := occ_len hocc_Y
        rw [List.length_append, hWlen, List.length_replicate] at hjlen
        have h0 := occ_char hocc_Y (k := 0) (by omega)
        rw [Nat.add_zero] at h0
        have h0r := wrap_tail_rparen A n (i - u.length) hfar (by omega)
        have : TEMPLATE_PLACEHOLDER[0]? = some ')' := h0.symm.trans h0r
        rw [PL_head] at this
        exact absurd this (by decide)


/-! ### Structure of the per-operation replacement text -/

lemma wrapText_decomp (op : Op) :
    wrapText op = wrapA op ++ (TEMPLATE_PLACEHOLDER ++ [')']) := by
  cases op <;> simp [wrapText, wrapA, List.append_assoc]

lemma wrapA_head (op : Op) : ∃ r, wrapA op = '(' :: r := by
  cases op <;> exact ⟨_, rfl⟩

lemma getLast?_append_seminl (x : Str) : (x ++ ";\n ".data).getLast? = some ' ' := by
  rw [List.getLast?_append]
  rfl

lemma getLast?_append_space (x : Str) : (x ++ " ".data).getLast? = some ' ' := by
  rw [List.getLast?_append]
  rfl

lemma wrapA_last (op : Op) : (wrapA op).getLast? = some ' ' := by
  cases op <;> simp only [wrapA] <;> simp only [List.getLast?_append] <;> rfl

/-- Behaviour of one successful wrap operation: the template is rewritten by
replacing the placeholder with the wrap text, exactly one entry (determined
by the operation alone) is appended to the step log, the dirty flag is set,
and the env map, namespace and name are untouched. -/
lemma applyOp_spec {op : Op} {c c' : Context} (h : applyOp op c = some c') :
    c'.template = replaceL TEMPLATE_PLACEHOLDER (wrapText op) c.template ∧
    (∃ e, opEntry op = some e ∧ c'.meta.step_log = c.meta.step_log ++ [e]) ∧
    c'.meta.is_dirty = true ∧
    c'.env = c.env ∧ c'.meta.nspace = c.meta.nspace ∧ c'.meta.name = c.meta.name := by
  cases op with
  | workdir w =>
    simp only [applyOp, with_workdir, Option.map_eq_some'] at h
    obtain ⟨a, ha, rfl⟩ := h
    refine ⟨rfl, ⟨_, ?_, rfl⟩, rfl, rfl, rfl, rfl⟩
    simp [opEntry, ha]
  | path p =>
    simp only [applyOp, with_path] at h
    cases hfn : path_last p with
    | none => rw [hfn] at h; simp at h
    | some fn =>
      rw [hfn] at h
      simp only [Option.bind_eq_bind, Option.some_bind] at h
      by_cases hb : fn = "bin".data
      · rw [if_pos hb] at h
        split at h
        next par hpar =>
          cases hpl : path_last par with
          | none => rw [hpl] at h; simp at h
          | some sv =>
            rw [hpl] at h
            simp only [Option.map_some', Option.some_bind] at h
            obtain rfl := Option.some.inj h
            refine ⟨rfl, ⟨_, ?_, rfl⟩, rfl, rfl, rfl, rfl⟩
            simp [opEntry, hfn, hb, hpar, hpl]
        next hpar =>
          obtain rfl := Option.some.inj h
          refine ⟨rfl, ⟨_, ?_, rfl⟩, rfl, rfl, rfl, rfl⟩
          simp [opEntry, hfn, hb, hpar]
      · rw [if_neg hb] at h
        obtain rfl := Option.some.inj h
        refine ⟨rfl, ⟨_, ?_, rfl⟩, rfl, rfl, rfl, rfl⟩
        simp [opEntry, hfn, hb]
  | env k v =>
    obtain rfl := Option.some.inj h
    exact ⟨rfl, ⟨_, rfl, rfl⟩, rfl, rfl, rfl, rfl⟩
  | command s =>
    obtain rfl := Option.some.inj h
    exact ⟨rfl, ⟨_, rfl, rfl⟩, rfl, rfl, rfl, rfl⟩
  | docker d =>
    obtain rfl := Option.some.inj h
    exact ⟨rfl, ⟨_, rfl, rfl⟩, rfl, rfl, rfl, rfl⟩

/-- A wrap text containing the placeholder exactly once contains it exactly
at the position after its head part. -/
lemma wrap_unique_pos {op : Op} (h1 : occCount (wrapText op) = 1) :
    ∀ i, occursAt (wrapA op ++ (TEMPLATE_PLACEHOLDER ++ [')'])) i → i = (wrapA op).length := by
  have hdec := wrapText_decomp op
  obtain ⟨i0, hi0, hu0⟩ := unique_of_occCount_one h1
  have hself : occursAt (wrapA op ++ (TEMPLATE_PLACEHOLDER ++ [')'])) (wrapA op).length := by
    unfold occursAt
    rw [List.drop_left]
    exact List.prefix_append _ _
  rw [← hdec] at hself
  have hlen := hu0 _ hself
  intro i hi
  rw [← hdec] at hi
  rw [hu0 i hi, ← hlen]

lemma inv_replace (op : Op) {t : Str}
    (hw1 : occCount (wrapText op) = 1)
    (ht : InvTemplate t) :
    InvTemplate (replaceL TEMPLATE_PLACEHOLDER (wrapText op) t) := by
  obtain ⟨u, n, rfl, hu, hq⟩ := ht
  rw [replace_decomp (wrapText op) u n hq]
  have heq : u ++ (wrapText op ++ List.replicate n ')') =
      (u ++ wrapA op) ++ (TEMPLATE_PLACEHOLDER ++ List.replicate (n + 1) ')') := by
    rw [wrapText_decomp op]
    simp [List.append_assoc, List.replicate_succ]
  refine ⟨u ++ wrapA op, n + 1, heq, Or.inr ?_, ?_⟩
  · rw [List.getLast?_append, wrapA_last op]
    rfl
  · intro i hi
    rw [heq] at hi
    have hst := inv_step (wrapA op) u n (wrapA_head op) (wrap_unique_pos hw1) hu hq
    have hi' : occursAt (u ++ ((wrapA op ++ (TEMPLATE_PLACEHOLDER ++ [')'])) ++
        List.replicate n ')')) i := by
      have hsh : (u ++ wrapA op) ++ (TEMPLATE_PLACEHOLDER ++ List.replicate (n + 1) ')') =
          u ++ ((wrapA op ++ (TEMPLATE_PLACEHOLDER ++ [')'])) ++ List.replicate n ')') := by
        simp [List.append_assoc, List.replicate_succ]
      rw [← hsh]
      exact hi
    have := hst i hi'
    rw [List.length_append]
    omega

/-- Template evolution along a successful sequence of wrap operations. -/
lemma applyOps_inv {ops : List Op} {c c' : Context}
    (hall : ∀ op ∈ ops, occCount (wrapText op) = 1)
    (h : applyOps ops c = some c')
    (hc : InvTemplate c.template) : InvTemplate c'.template := by
  induction ops generalizing c with
  | nil =>
    obtain rfl := Option.some.inj h
    exact hc
  | cons op rest ih =>
    simp only [applyOps, Option.bind_eq_bind, Option.bind_eq_some] at h
    obtain ⟨c₁, h₁, h₂⟩ := h
    refine ih (fun o ho => hall o (List.mem_cons_of_mem _ ho)) h₂ ?_
    have hspec := applyOp_spec h₁
    rw [hspec.1]
    exact inv_replace op (hall op (List.mem_cons_self _ _)) hc


/-! ### Claim theorems -/

/-- C1, counterexample: the claim quantifies over arbitrary string
arguments, but passing the placeholder text itself as the command argument
of one `with_command` wrap yields a template with two placeholder
occurrences, not one. -/
theorem claim_C1_counterexample :
    ∃ c', applyOps [Op.command TEMPLATE_PLACEHOLDER] get_base_context = some c' ∧
      occCount c'.template ≠ 1 := by
  refine ⟨_, rfl, ?_⟩
  decide

/-- C1 (amended): starting from the base context, whose template is exactly
the placeholder, any successful sequence of wrap operations, each of whose
generated replacement text contains the placeholder exactly once (which
holds whenever no argument contains the placeholder or completes one
together with the generated glue), yields a template containing the
placeholder exactly once. -/
theorem claim_C1 (ops : List Op) (c' : Context)
    (hops : ∀ op ∈ ops, occCount (wrapText op) = 1)
    (hrun : applyOps ops get_base_context = some c') :
    occCount c'.template = 1 := by
  obtain ⟨u, n, heq, hu, hq⟩ := applyOps_inv hops hrun inv_base
  refine occCount_one_of_unique (i := u.length) ?_ hq
  rw [heq]
  unfold occursAt
  rw [List.drop_left]
  exact List.prefix_append _ _

/-- C1, witness: one `with_workdir "/tmp"` wrap keeps the count at one. -/
theorem claim_C1_witness :
    occCount ((applyOps [Op.workdir "/tmp".data] get_base_context).getD
      get_base_context).template = 1 := by
  refine claim_C1 [Op.workdir "/tmp".data] _ ?_ ?_
  · decide
  · decide

/-- C2: base context, `with_workdir "/tmp"`, then `with_command
"echo $PWD"`, then substituting the user command `ls -la` for the
placeholder yields the nested shell string with the workdir wrap outermost,
the echo command inside it, and the user command innermost. -/
theorem claim_C2 :
    (with_workdir get_base_context "/tmp".data).map
        (fun c => run_context (with_command c "echo $PWD".data) "ls -la".data) =
      some "(cd /tmp;\n (echo $PWD;\n ls -la))".data := by
  decide

/-- C4: a successful sequence of N wrap operations appends exactly N
step-log entries — one per operation, determined by the operation alone, in
call order — and leaves every pre-existing entry in place and unchanged. -/
theorem claim_C4 (ops : List Op) (c c' : Context)
    (h : applyOps ops c = some c') :
    ∃ es, opEntries ops = some es ∧ es.length = ops.length ∧
      c'.meta.step_log = c.meta.step_log ++ es := by
  induction ops generalizing c with
  | nil =>
    obtain rfl := Option.some.inj h
    exact ⟨[], rfl, rfl, by simp⟩
  | cons op rest ih =>
    simp only [applyOps, Option.bind_eq_bind, Option.bind_eq_some] at h
    obtain ⟨c₁, h₁, h₂⟩ := h
    obtain ⟨e, he, hlog⟩ := (applyOp_spec h₁).2.1
    obtain ⟨es, hes, hlen, hlog2⟩ := ih c₁ h₂
    refine ⟨e :: es, ?_, by simp [hlen], ?_⟩
    · simp only [opEntries, Option.bind_eq_bind, he, Option.some_bind, hes]
    · rw [hlog2, hlog]
      simp

/-- C4, witness: one `with_env` appends exactly its one entry to the base
context's empty log. -/
theorem claim_C4_witness :
    ∃ es, opEntries [Op.env "FOO".data "BAR".data] = some es ∧
      es.length = [Op.env "FOO".data "BAR".data].length ∧
      ((applyOps [Op.env "FOO".data "BAR".data] get_base_context).getD
          get_base_context).meta.step_log =
        get_base_context.meta.step_log ++ es :=
  claim_C4 [Op.env "FOO".data "BAR".data] get_base_context
    ((applyOps [Op.env "FOO".data "BAR".data] get_base_context).getD get_base_context)
    (by decide)

/-- C9: every wrap operation leaves the env map, the namespace and the name
of the context unchanged; in particular `with_env` does not insert its
key/value pair into the env map. -/
theorem claim_C9 (op : Op) (c c' : Context) (h : applyOp op c = some c') :
    c'.env = c.env ∧ c'.meta.nspace = c.meta.nspace ∧ c'.meta.name = c.meta.name := by
  obtain ⟨-, -, -, h1, h2, h3⟩ := applyOp_spec h
  exact ⟨h1, h2, h3⟩

/-- C9, witness: `with_env "FOO" "BAR"` leaves env, namespace and name of
the base context unchanged. -/
theorem claim_C9_witness :
    ((applyOp (Op.env "FOO".data "BAR".data) get_base_context).getD
        get_base_context).env = get_base_context.env ∧
      ((applyOp (Op.env "FOO".data "BAR".data) get_base_context).getD
        get_base_context).meta.nspace = get_base_context.meta.nspace ∧
      ((applyOp (Op.env "FOO".data "BAR".data) get_base_context).getD
        get_base_context).meta.name = get_base_context.meta.name :=
  claim_C9 (Op.env "FOO".data "BAR".data) get_base_context
    ((applyOp (Op.env "FOO".data "BAR".data) get_base_context).getD get_base_context)
    (by decide)


/-- C3, counterexample: the session record written right after a wrap holds
a dirty context, so a context just loaded from the session record can have
`is_dirty = true`, refuting the claim that a just-loaded context has
`is_dirty = false`. -/
theorem claim_C3_counterexample :
    (with_workdir get_base_context "/tmp".data).map
        (fun c => (get_current_shell_context (some c)).meta.is_dirty) = some true := by
  decide

/-- C3 (amended): the fresh base context, a just-saved context, and a
session load finding no record all have `is_dirty = false`; any successful
wrap operation returns a context with `is_dirty = true`; a load returns the
stored context, flag included, so a session load right after a wrap yields
`is_dirty = true` rather than `false`. -/
theorem claim_C3 :
    get_base_context.meta.is_dirty = false ∧
    (get_current_shell_context none).meta.is_dirty = false ∧
    (∀ c nspace name, (save_context c nspace name).meta.is_dirty = false) ∧
    (∀ op c c', applyOp op c = some c' → c'.meta.is_dirty = true) ∧
    (∀ c, get_current_shell_context (some c) = c) :=
  ⟨rfl, rfl, fun _ _ _ => rfl, fun _ _ _ h => (applyOp_spec h).2.2.1, fun _ => rfl⟩

/-- C3, witness: one `with_docker` wrap on the base context sets the dirty
flag. -/
theorem claim_C3_witness :
    ((applyOp (Op.docker "ubuntu".data) get_base_context).getD
        get_base_context).meta.is_dirty = true :=
  claim_C3.2.2.2.1 (Op.docker "ubuntu".data) get_base_context
    ((applyOp (Op.docker "ubuntu".data) get_base_context).getD get_base_context)
    (by decide)

/-- C6: evaluation of the code at the failing input.  The spec promises the
prompt `ctr(ubuntu)` for `with_docker("ubuntu")`, but the code formats the
container with Rust `{:?}` (unlike every sibling operation, which formats
its prompt argument with plain `{}`), producing `ctr("ubuntu")` with
literal quotes — a string different from the promised one. -/
theorem claim_C6 :
    (with_docker get_base_context "ubuntu".data).meta.step_log.map
        (fun e => e.prompt) = [some "ctr(\"ubuntu\")".data] ∧
      "ctr(\"ubuntu\")".data ≠ "ctr(ubuntu)".data := by
  constructor
  · decide
  · decide

/-- C7: a session load finding no record yields the fresh base context,
whose template is exactly the placeholder token, while a named load finding
no record is fatal (modelled as `none`); the absent session record is thus
the sole absent-record condition treated as normal. -/
theorem claim_C7 :
    get_current_shell_context none = get_base_context ∧
      get_base_context.template = TEMPLATE_PLACEHOLDER ∧
      load_context none = none :=
  ⟨rfl, rfl, rfl⟩

/-- C8: when `is_dirty = false` the prompt rendering emits no step-log
fragments whatever the log holds, and for namespace `default` and name
`proj` it is exactly the string `(proj)`. -/
theorem claim_C8 (c : Context) (h : c.meta.is_dirty = false) :
    (c.meta.nspace = "default".data → c.meta.name = "proj".data →
      pretty_prompt c = "(proj)".data) ∧
    ∀ log, pretty_prompt { c with meta := { c.meta with step_log := log } } =
      pretty_prompt { c with meta := { c.meta with step_log := [] } } := by
  constructor
  · intro h1 h2
    simp [pretty_prompt, prompt_name_tag, h, h1, h2]
  · intro log
    simp [pretty_prompt, prompt_name_tag, h]

/-- C8, witness: the concrete clean context named `proj` renders exactly
`(proj)`. -/
theorem claim_C8_witness :
    pretty_prompt
        { meta := { nspace := "default".data, name := "proj".data,
                    is_dirty := false, step_log := [] },
          env := [], template := TEMPLATE_PLACEHOLDER } = "(proj)".data :=
  (claim_C8 _ rfl).1 rfl rfl

/-- C10: `with_workdir` and `with_path` are not total — on `/`, the empty
string and `..` the `path_last` unwraps panic and no context is returned —
but whenever the argument has a final normal component (and, for
`with_path`, the parent of a path ending in `bin` has one too) the panics
are unreachable and the operation succeeds. -/
theorem claim_C10 :
    (∀ c : Context, with_workdir c "/".data = none ∧ with_workdir c "".data = none ∧
      with_workdir c "..".data = none ∧ with_path c "/".data = none) ∧
    (∀ c w, (path_last w).isSome = true → (with_workdir c w).isSome = true) ∧
    (∀ c p fn, path_last p = some fn →
      (fn = "bin".data → ∀ par, parent p = some par → (path_last par).isSome = true) →
      (with_path c p).isSome = true) := by
  refine ⟨?_, ?_, ?_⟩
  · intro c
    refine ⟨?_, ?_, ?_, ?_⟩
    · simp [with_workdir, show path_last "/".data = none from by decide]
    · simp [with_workdir, show path_last "".data = none from by decide]
    · simp [with_workdir, show path_last "..".data = none from by decide]
    · simp [with_path, show path_last "/".data = none from by decide]
  · intro c w hw
    obtain ⟨l, hl⟩ := Option.isSome_iff_exists.mp hw
    simp [with_workdir, hl]
  · intro c p fn hfn hbin
    simp only [with_path, hfn, Option.bind_eq_bind, Option.some_bind]
    by_cases hb : fn = "bin".data
    · rw [if_pos hb]
      cases hpar : parent p with
      | none => simp
      | some par =>
        obtain ⟨sv, hs⟩ := Option.isSome_iff_exists.mp (hbin hb par hpar)
        simp [hs]
    · rw [if_neg hb]
      simp

/-- C10, witness: `/tmp` has a final component and `with_workdir` succeeds
on it; `/usr/bin` ends in `bin` with parent component `usr` and `with_path`
succeeds on it. -/
theorem claim_C10_witness :
    (path_last "/tmp".data).isSome = true ∧
      (with_workdir get_base_context "/tmp".data).isSome = true ∧
      path_last "/usr/bin".data = some "bin".data ∧
      (with_path get_base_context "/usr/bin".data).isSome = true := by
  refine ⟨by decide, claim_C10.2.1 get_base_context "/tmp".data (by decide), by decide, ?_⟩
  refine claim_C10.2.2 get_base_context "/usr/bin".data "bin".data (by decide) ?_
  intro _ par hpar
  have hp : par = "usr".data := by
    rw [show parent "/usr/bin".data = some "usr".data from by decide] at hpar
    exact (Option.some.inj hpar).symm
  rw [hp]
  decide


/-! ### Path components of the saved-context path (C5) -/

lemma splitSlash_ne_nil (p : Str) : splitSlash p ≠ [] := by
  cases p with
  | nil => simp [splitSlash]
  | cons c r =>
    simp only [splitSlash]
    by_cases h : c = '/'
    · simp [h]
    · rw [if_neg h]
      cases hsp : splitSlash r with
      | nil => simp
      | cons a t => simp

lemma splitSlash_append (a b : Str) :
    splitSlash (a ++ '/' :: b) = splitSlash a ++ splitSlash b := by
  induction a with
  | nil => simp [splitSlash]
  | cons c r ih =>
    show splitSlash (c :: (r ++ '/' :: b)) = _
    by_cases h : c = '/'
    · subst h
      simp [splitSlash, ih]
    · cases hsp : splitSlash r with
      | nil => exact absurd hsp (splitSlash_ne_nil r)
      | cons x t =>
        simp only [splitSlash, if_neg h, ih, hsp]
        simp

lemma splitSlash_no_slash (s : Str) (h : ∀ c ∈ s, c ≠ '/') : splitSlash s = [s] := by
  induction s with
  | nil => rfl
  | cons c r ih =>
    have hc : ¬ c = '/' := h c (List.mem_cons_self _ _)
    have ih' := ih (fun x hx => h x (List.mem_cons_of_mem _ hx))
    simp [splitSlash, hc, ih']

lemma sanitize_no_slash (s : Str) : ∀ c ∈ sanitize_component s, c ≠ '/' := by
  intro c hc
  simp only [sanitize_component, List.mem_map] at hc
  obtain ⟨a, ha, rfl⟩ := hc
  by_cases h1 : (a = '/' || a = '\\') = true
  · rw [if_pos h1]
    decide
  · rw [if_neg h1]
    simp at h1
    exact h1.1

lemma name_json_no_slash (name : Str) :
    ∀ c ∈ sanitize_component name ++ ".json".data, c ≠ '/' := by
  intro c hc
  rcases List.mem_append.mp hc with hc | hc
  · exact sanitize_no_slash name c hc
  · have hjson : ∀ x ∈ ".json".data, x ≠ '/' := by decide
    exact hjson c hc

lemma name_json_length (name : Str) :
    (sanitize_component name ++ ".json".data).length = name.length + 5 := by
  simp [sanitize_component]

lemma components_full (home ns name : Str) :
    splitSlash (get_saved_context_path home ns name) =
      splitSlash home ++ ([".config".data] ++ (["frs".data] ++ (["context".data] ++
        ([sanitize_component ns] ++ [sanitize_component name ++ ".json".data])))) := by
  have h1 : get_saved_context_path home ns name =
      home ++ '/' :: (".config".data ++ '/' :: ("frs".data ++ '/' :: ("context".data ++
        '/' :: (sanitize_component ns ++ '/' ::
          (sanitize_component name ++ ".json".data))))) := by
    unfold get_saved_context_path
    simp [List.append_assoc]
  rw [h1, splitSlash_append, splitSlash_append, splitSlash_append, splitSlash_append,
    splitSlash_append]
  rw [show splitSlash ".config".data = [".config".data] from by decide]
  rw [show splitSlash "frs".data = ["frs".data] from by decide]
  rw [show splitSlash "context".data = ["context".data] from by decide]
  rw [splitSlash_no_slash _ (sanitize_no_slash ns)]
  rw [splitSlash_no_slash _ (name_json_no_slash name)]

lemma filter_single (p : Str → Bool) (a : Str) :
    [a].filter p = if p a = true then [a] else [] := by
  rw [List.filter_cons]
  by_cases h : p a = true
  · simp [h]
  · simp [h]

lemma foldl_resolve_no_pops (ys : List Str) (h : ∀ c ∈ ys, c ≠ "..".data) :
    ∀ acc, List.foldl
        (fun acc c => if c = "..".data then acc.dropLast else acc ++ [c]) acc ys
      = acc ++ ys := by
  induction ys with
  | nil => intro acc; simp
  | cons y ys ih =>
    intro acc
    rw [List.foldl_cons, if_neg (h y (List.mem_cons_self _ _))]
    rw [ih (fun c hc => h c (List.mem_cons_of_mem _ hc))]
    simp

lemma resolve_full (home ns name : Str) (h : sanitize_component ns ≠ "..".data) :
    resolvePath (pathComponents (get_saved_context_path home ns name)) =
      resolvePath (pathComponents home) ++
        ([".config".data, "frs".data, "context".data] ++
          (([sanitize_component ns].filter (fun s => !(s.isEmpty || s = ".".data))) ++
            [sanitize_component name ++ ".json".data])) := by
  have hnc_len := name_json_length name
  have hnc_ne : sanitize_component name ++ ".json".data ≠ [] := by
    intro heq
    have hg := congrArg List.length heq
    rw [hnc_len] at hg
    simp at hg
  have hnc_nd : sanitize_component name ++ ".json".data ≠ ".".data := by
    intro heq
    have hg := congrArg List.length heq
    rw [hnc_len] at hg
    simp at hg
  have hnc_np : sanitize_component name ++ ".json".data ≠ "..".data := by
    intro heq
    have hg := congrArg List.length heq
    rw [hnc_len] at hg
    simp at hg
  have hcomp : pathComponents (get_saved_context_path home ns name) =
      pathComponents home ++ ([".config".data, "frs".data, "context".data] ++
        (([sanitize_component ns].filter (fun s => !(s.isEmpty || s = ".".data))) ++
          [sanitize_component name ++ ".json".data])) := by
    unfold pathComponents
    rw [components_full]
    simp only [List.filter_append]
    congr 1
    rw [show ([".config".data] : List Str).filter
        (fun s => !(s.isEmpty || s = ".".data)) = [".config".data] from by decide]
    rw [show (["frs".data] : List Str).filter
        (fun s => !(s.isEmpty || s = ".".data)) = ["frs".data] from by decide]
    rw [show (["context".data] : List Str).filter
        (fun s => !(s.isEmpty || s = ".".data)) = ["context".data] from by decide]
    rw [show ([sanitize_component name ++ ".json".data] : List Str).filter
        (fun s => !(s.isEmpty || s = ".".data)) =
        [sanitize_component name ++ ".json".data] from by
      rw [filter_single, if_pos]
      rw [List.isEmpty_eq_false.mpr hnc_ne, decide_eq_false hnc_nd]
      rfl]
    simp
  rw [hcomp]
  unfold resolvePath
  rw [List.foldl_append]
  rw [foldl_resolve_no_pops _ ?hnp]
  case hnp =>
    intro c hc
    rcases List.mem_append.mp hc with hc | hc
    · have hlit : ∀ x ∈ ([".config".data, "frs".data, "context".data] : List Str),
          x ≠ "..".data := by decide
      exact hlit c hc
    · rcases List.mem_append.mp hc with hc | hc
      · have hm := (List.mem_filter.mp hc).1
        have hms : c = sanitize_component ns := by simpa using hm
        rw [hms]
        exact h
      · have hms : c = sanitize_component name ++ ".json".data := by simpa using hc
        rw [hms]
        exact hnc_np

/-- C5, counterexample: a namespace of `..` survives the separator
substitution unchanged, so the saved-context path resolves outside the
`context` storage directory. -/
theorem claim_C5_counterexample :
    ¬ ((resolvePath (pathComponents "/h".data) ++
        [".config".data, "frs".data, "context".data]) <+:
      resolvePath (pathComponents (get_saved_context_path "/h".data "..".data "x".data))) := by
  decide

/-- C5 (amended): the separator substitution confines each of namespace and
name to a single path component, so for every namespace whose sanitized
form is not the parent-directory component `..` (the name needs no
restriction), the resolved saved-context path stays inside the storage
directory `<home>/.config/frs/context`; a namespace of `..` itself escapes
it by one level. -/
theorem claim_C5 (home ns name : Str) (h : sanitize_component ns ≠ "..".data) :
    (resolvePath (pathComponents home) ++
        [".config".data, "frs".data, "context".data]) <+:
      resolvePath (pathComponents (get_saved_context_path home ns name)) := by
  rw [resolve_full home ns name h]
  rw [show resolvePath (pathComponents home) ++
      ([".config".data, "frs".data, "context".data] ++
        (([sanitize_component ns].filter (fun s => !(s.isEmpty || s = ".".data))) ++
          [sanitize_component name ++ ".json".data])) =
      (resolvePath (pathComponents home) ++
        [".config".data, "frs".data, "context".data]) ++
        (([sanitize_component ns].filter (fun s => !(s.isEmpty || s = ".".data))) ++
          [sanitize_component name ++ ".json".data]) from by
    simp [List.append_assoc]]
  exact List.prefix_append _ _

/-- C5, witness: a namespace containing a slash is confined to one
component and the path stays inside the storage directory. -/
theorem claim_C5_witness :
    (resolvePath (pathComponents "/home/u".data) ++
        [".config".data, "frs".data, "context".data]) <+:
      resolvePath (pathComponents (get_saved_context_path "/home/u".data "a/b".data
        "x".data)) :=
  claim_C5 "/home/u".data "a/b".data "x".data (by decide)

end Frs
